import Mathlib

/-!
# Verification development for the imatrix statistics collector

Shallow embedding of `examples/imatrix/imatrix.cpp`: the per-tensor
statistics accumulator (`Stats`, `IMatrixCollector`), the binary
serialization codec (`save_imatrix` / `load_imatrix`), the log-softmax
reducer and the layer-importance (LIM) scorer, together with theorems
about the claims of the specification.

Modelling conventions:
* C++ `float`/`double` values are modelled by `ℚ` (exact arithmetic) in the
  accumulator and codec, and by `ℝ` where transcendental functions
  (`expf`, `log`, `sqrtf`) appear.  Rounding of IEEE arithmetic is not
  modelled; the non-finiteness check of the C++ code can consequently
  never fire in the model and is omitted.
* The `std::unordered_map<std::string, Stats>` is modelled as an
  association list in iteration order; `operator[]` appends a
  default-constructed entry for an absent key.
* The byte stream written with `out.write` is modelled at field
  granularity: one `Chunk` per `int32`, per string payload, and per
  `float` array element.  All reads are all-or-nothing at chunk
  granularity; `in.fail()` corresponds to a read returning `none`.
* C++ `int` is modelled as `Int` where values can come from a file
  (`ncall`, counts, stream fields) and as `Nat` for tensor geometry
  (`ne[i]`, `n_as`), which is positive in the source.
-/

-- Batteries marks `Rat` arithmetic `irreducible`, which blocks the `decide`
-- tactic's pre-kernel evaluation of concrete rational computations.  Restore
-- default reducibility; all proofs are still checked by the kernel.
set_option allowUnsafeReducibility true in
attribute [semireducible] Rat.add Rat.mul Rat.div Rat.sub Rat.neg Rat.inv

/-- Indexed in-place update of a list: `updIdx f k l` applies `f (k+i)` to the
element at position `i`.  It models the C++ loops that write `v[j] = ...` for
every index `j` of a vector. -/
def updIdx (f : Nat → α → α) : Nat → List α → List α
  | _, [] => []
  | k, a :: l => f k a :: updIdx f (k + 1) l

/-- `struct Stats` of imatrix.cpp: per-tensor running statistics.
`activations` is the most recent raw activation (`std::vector<float> activations`),
`values` the running sums of squares, `counts` the per-element observation
counts, `ncall` the number of observation events, `n_as` the expert count
(1 for plain tensors). -/
structure Stats where
  activations : List ℚ
  values : List ℚ
  counts : List Int
  ncall : Int
  n_as : Nat
deriving DecidableEq

/-- Default-constructed `Stats` (`ncall = 0`, `n_as = 1`, empty vectors). -/
def Stats.init : Stats := ⟨[], [], [], 0, 1⟩

/-- Association-list lookup, modelling `unordered_map::find` / `at`. -/
def lookupStats : List (String × Stats) → String → Option Stats
  | [], _ => none
  | (n, s) :: r, k => if n = k then some s else lookupStats r k

/-- Association-list update at a key, appending if the key is absent;
models assignment through `m_stats[k]`. -/
def setStats : List (String × Stats) → String → Stats → List (String × Stats)
  | [], k, v => [(k, v)]
  | (n, s) :: r, k, v => if n = k then (k, v) :: r else (n, s) :: setStats r k v

/-- `m_stats[k]` for read-modify-write: returns the entry (default-constructed
and inserted when absent) together with the updated map. -/
def getOrInsert (m : List (String × Stats)) (k : String) : Stats × List (String × Stats) :=
  match lookupStats m k with
  | some s => (s, m)
  | none => (Stats.init, m ++ [(k, Stats.init)])

/-- Number of zero entries of a count vector (the `n_zeros` computation of
`save_imatrix`). -/
def countZeros (l : List Int) : Nat := l.countP (fun c => decide (c = 0))

/-- Experts with at least one zero-count element (the `bad_experts` vector of
`save_imatrix`, in increasing index order). -/
def badExperts (counts : List Int) (n_as nper : Nat) : List Nat :=
  (List.range n_as).filter (fun i => decide (0 < countZeros ((counts.drop (i * nper)).take nper)))

/-- The in-place repair of `save_imatrix`: for every bad expert `b` the whole
block `[b*nper, b*nper+nper)` of `counts` and `values` is overwritten with `1`
(`counts[j] = 1; values[j] = 1;` for all `j < n_per_expert`).  Membership of
index `i` in the block of bad expert `b` is expressed as `i / nper = b`, which
coincides with the C++ block writes because `bad ⊆ [0, n_as)` and all written
blocks lie inside the array. -/
def repairExperts (s : Stats) (bad : List Nat) (nper : Nat) : Stats :=
  { s with
    counts := updIdx (fun i c => if i / nper ∈ bad then 1 else c) 0 s.counts,
    values := updIdx (fun i v => if i / nper ∈ bad then 1 else v) 0 s.values }

/-- The per-entry store/drop/repair decision of `save_imatrix` (lines 249-310):
returns the `store_it` flag and the (possibly repaired, in place) entry.
The threshold `round(n_as * 0.05)` of the C++ source is computed in `double`;
for every `n_as` the result equals round-half-away-from-zero of the exact
rational `n_as/20`, i.e. `(n_as + 10) / 20` in natural division (the relative
error of `0.05` as a double, about `1e-17`, never moves the value across a
rounding boundary, and at exact halves `n_as * 0.05 ≥ n_as/20` so both round
up). -/
def processEntry (s : Stats) : Bool × Stats :=
  let n_all := s.counts.length
  if n_all = 0 then (false, s)
  else
    let n_zeros := countZeros s.counts
    if n_zeros = n_all then (false, s)
    else if 0 < n_zeros then
      if 1 < s.n_as then
        let nper := n_all / s.n_as
        let bad := badExperts s.counts s.n_as nper
        if bad.length < (s.n_as + 10) / 20 then (true, repairExperts s bad nper)
        else (false, s)
      else (false, s)
    else (true, s)

/-- The derived value vector written for one entry:
`tmp[i] = (values[i] / (float)counts[i]) * (float)ncall` (line 329). -/
def serializedValues (s : Stats) : List ℚ :=
  (List.range s.values.length).map
    (fun i => s.values.getD i 0 / ((s.counts.getD i 0 : Int) : ℚ) * ((s.ncall : Int) : ℚ))

/-- One field of the binary snapshot stream: a 4-byte little-endian `int32`,
a raw string payload, or a 4-byte IEEE `float`.  The fixed-width encodings
are injective, so equality of chunk streams models byte-identical files. -/
inductive Chunk
  | i32 (v : Int)
  | str (s : String)
  | f32 (v : ℚ)
deriving DecidableEq

/-- The record written for one stored entry by `save_imatrix` (lines 318-333):
`int32 len; bytes name; int32 ncall; int32 nval; float tmp[nval]`.
When `nval = 0` the C++ code writes no float block, which coincides with
mapping over the empty list. -/
def entryChunks (name : String) (s : Stats) : List Chunk :=
  [Chunk.i32 (name.length : Int), Chunk.str name,
   Chunk.i32 s.ncall, Chunk.i32 (s.values.length : Int)]
  ++ (serializedValues s).map Chunk.f32

/-- `IMatrixCollector` state: the statistics map and `m_last_call`.
The mutex, scratch buffers and `gpt_params` member are modelled separately. -/
structure Collector where
  m_stats : List (String × Stats)
  m_last_call : Int
deriving DecidableEq

/-- `IMatrixCollector::save_imatrix` (lines 231-348).  Returns the produced
chunk stream and the collector state after the call: the repair of partially
observed routed entries writes through `const` via the casts
`(int *)kv.second.counts.data()`, so the function is **not** read-only on the
accumulator and the post-state is returned explicitly.  The first pass over
the map computes the store decision and performs the in-place repair; the
write pass then reads the (mutated) entries with `m_stats.at(name)`.  The
`ncall` file-name suffix parameter and all diagnostic prints are irrelevant
to the stream contents and are omitted. -/
def save_imatrix (c : Collector) (prompt_file : String) : List Chunk × Collector :=
  let processed := c.m_stats.map (fun kv => (kv.1, processEntry kv.2))
  let newStats := processed.map (fun kv => (kv.1, kv.2.2))
  let to_store := (processed.filter (fun kv => kv.2.1)).map (fun kv => kv.1)
  let body := (to_store.map
    (fun name => entryChunks name ((lookupStats newStats name).getD Stats.init))).flatten
  (Chunk.i32 (to_store.length : Int) :: body
    ++ [Chunk.i32 c.m_last_call, Chunk.i32 (prompt_file.length : Int), Chunk.str prompt_file],
   { c with m_stats := newStats })

/-- Read one `int32` from the stream; `none` models `in.fail()`. -/
def readI32 : List Chunk → Option (Int × List Chunk)
  | Chunk.i32 v :: st => some (v, st)
  | _ => none

/-- Read a string payload of `n` bytes.  Reads are chunk-aligned: the next
chunk must be a string of exactly that length (all streams handled by the
claims are produced field-by-field, so alignment always holds). -/
def readStr (n : Nat) : List Chunk → Option (String × List Chunk)
  | Chunk.str s :: st => if s.length = n then some (s, st) else none
  | _ => none

/-- Read `n` consecutive `float` values. -/
def readF32s : Nat → List Chunk → Option (List ℚ × List Chunk)
  | 0, st => some ([], st)
  | n + 1, Chunk.f32 v :: st =>
      match readF32s n st with
      | some (vs, st') => some (v :: vs, st')
      | none => none
  | _ + 1, _ => none

/-- The merge of one decoded entry into the accumulator (lines 396-401):
`values[i] += tmp[i]`, `counts[i] += ncall` for `i < nval`, `ncall += ncall`.
For `nval` larger than the array the C++ loop writes out of bounds
(undefined behaviour); the model updates the indices that exist. -/
def mergeEntry (e : Stats) (ncall : Int) (tmp : List ℚ) : Stats :=
  { e with
    values := updIdx (fun i v => if i < tmp.length then v + tmp.getD i 0 else v) 0 e.values,
    counts := updIdx (fun i c => if i < tmp.length then c + ncall else c) 0 e.counts,
    ncall := e.ncall + ncall }

/-- The entry loop of `IMatrixCollector::load_imatrix` (lines 362-403),
with the number of remaining entries as fuel.  Returns the success flag, the
statistics map, and the unread remainder of the stream.  Failure while
reading the length or the name returns `false` and leaves the map as built so
far (the C++ code returns without touching `m_stats`); failure from the
`ncall`/`nval` reads, `nval < 1`, or the value block resets the map to empty
(`m_stats = {};`). -/
def load_entries : Nat → List (String × Stats) → List Chunk →
    Bool × List (String × Stats) × List Chunk
  | 0, stats, st => (true, stats, st)
  | n + 1, stats, st =>
    match readI32 st with
    | none => (false, stats, st)
    | some (len, st1) =>
      match readStr len.toNat st1 with
      | none => (false, stats, st1)
      | some (name, st2) =>
        -- auto & e = m_stats[std::move(name)];  (inserts before further reads)
        let stats1 := (getOrInsert stats name).2
        match readI32 st2 with
        | none => (false, [], st2)
        | some (ncall, st3) =>
          match readI32 st3 with
          | none => (false, [], st3)
          | some (nval, st4) =>
            if nval < 1 then (false, [], st4)
            else
              -- if (e.values.empty()) resize both arrays to nval zeros
              let stats2 := setStats stats1 name
                (let e := (lookupStats stats1 name).getD Stats.init
                 if e.values = [] then
                   { e with values := List.replicate nval.toNat 0,
                            counts := List.replicate nval.toNat 0 }
                 else e)
              match readF32s nval.toNat st4 with
              | none => (false, [], st4)
              | some (tmp, st5) =>
                let stats3 := setStats stats2 name
                  (mergeEntry ((lookupStats stats2 name).getD Stats.init) ncall tmp)
                load_entries n stats3 st5

/-- `IMatrixCollector::load_imatrix` (lines 350-405) from the point where the
file is open: reads the entry count (failure or a count below 1 returns
`false` without touching the map) and then the entries.  `m_last_call` is
never modified by loading.  The two trailing fields of the file are not read. -/
def load_imatrix (st : List Chunk) (c : Collector) : Bool × Collector :=
  match readI32 st with
  | none => (false, c)
  | some (n, st1) =>
    if n < 1 then (false, c)
    else
      let r := load_entries n.toNat c.m_stats st1
      (r.1, { c with m_stats := r.2.1 })

/-- The entry produced by decoding one stored record into a fresh key:
`values = tmp`, uniform `counts = ncall`, `activations` stays empty and
`n_as` stays 1 (neither is persisted). -/
def reloadedStats (s : Stats) : Stats :=
  ⟨[], serializedValues s, List.replicate s.values.length s.ncall, s.ncall, 1⟩

/-- The fields of `gpt_params` the collector reads during collection:
output frequency, numbered-save frequency и the prompt-file name written at
the end of each snapshot. -/
structure GptParams where
  n_out_freq : Int
  n_save_freq : Int
  prompt_file : String
deriving DecidableEq

/-- Collection errors: the fatal `exit(1)` on an inconsistent entry size and
the aborting `GGML_ASSERT` on an out-of-range expert id.  The error carries
the collector state at the moment of termination, making the mutations
performed before the abort observable in theorems. -/
inductive CollectErr
  | sizeMismatch
  | assertFailed
deriving DecidableEq

/-- The checkpoint trigger run after accumulation (lines 179-187 / 217-225):
if the entry's `ncall` exceeds `m_last_call`, update `m_last_call` and save
when it crosses a multiple of either frequency.  Only the in-memory effect of
`save_imatrix` (the repair write-back) is retained; the emitted streams go to
files. -/
def triggerSave (c : Collector) (p : GptParams) (wname : String) : Collector :=
  let e := (lookupStats c.m_stats wname).getD Stats.init
  if c.m_last_call < e.ncall then
    let c1 := { c with m_last_call := e.ncall }
    let c2 := if c1.m_last_call % p.n_out_freq = 0 then (save_imatrix c1 p.prompt_file).2 else c1
    if 0 < p.n_save_freq ∧ c2.m_last_call % p.n_save_freq = 0
    then (save_imatrix c2 p.prompt_file).2 else c2
  else c

/-- One row of the plain accumulation loop (lines 205-216): overwrite
`activations[j]`, add `x[j]*x[j]` to `values[j]` and increment `counts[j]`
for every `j < ne0`.  The row `x` has length `ne0`, the length of the entry
arrays.  The `std::isfinite` check cannot fire over `ℚ` and is omitted. -/
def accumRow (e : Stats) (x : List ℚ) : Stats :=
  { e with
    activations := updIdx (fun j a => x.getD j a) 0 e.activations,
    values := updIdx (fun j v => v + x.getD j 0 * x.getD j 0) 0 e.values,
    counts := updIdx (fun _ c => c + 1) 0 e.counts }

/-- The plain (`GGML_OP_MUL_MAT`) data path of
`IMatrixCollector::collect_imatrix` (lines 189-226), after the name filter:
look the entry up (inserting a default one for a new key), size it on first
use, abort with `exit(1)` on a size mismatch **before** touching any field,
then increment `ncall`, accumulate all `ne1*ne2` rows and run the checkpoint
trigger.  `rows` is the host-resident `src1` buffer split into rows of
`ne0` floats. -/
def collect_plain (c : Collector) (p : GptParams) (wname : String) (ne0 : Nat)
    (rows : List (List ℚ)) : Except (CollectErr × Collector) Collector :=
  let e0 := (getOrInsert c.m_stats wname).1
  let c0 : Collector := { c with m_stats := (getOrInsert c.m_stats wname).2 }
  if e0.values = [] ∨ e0.values.length = ne0 then
    let e1 := if e0.values = [] then
        { e0 with activations := List.replicate ne0 0,
                  values := List.replicate ne0 0,
                  counts := List.replicate ne0 0 }
      else e0
    let e2 := { e1 with ncall := e1.ncall + 1 }
    let e3 := rows.foldl accumRow e2
    let c1 := { c0 with m_stats := setStats c0.m_stats wname e3 }
    Except.ok (triggerSave c1 p wname)
  else
    Except.error (CollectErr.sizeMismatch, c0)

/-- One selected row accumulated into the block of expert `ex`
(lines 168-176): for `j < ne0`, overwrite `activations[ex*ne0+j]`, add the
square to `values[ex*ne0+j]` and increment `counts[ex*ne0+j]`. -/
def accumExpertRow (e : Stats) (ne0 ex : Nat) (x : Nat → ℚ) : Stats :=
  { e with
    activations := updIdx (fun i a =>
      if ex * ne0 ≤ i ∧ i < ex * ne0 + ne0 then x (i - ex * ne0) else a) 0 e.activations,
    values := updIdx (fun i v =>
      if ex * ne0 ≤ i ∧ i < ex * ne0 + ne0 then v + x (i - ex * ne0) * x (i - ex * ne0) else v)
      0 e.values,
    counts := updIdx (fun i c =>
      if ex * ne0 ≤ i ∧ i < ex * ne0 + ne0 then c + 1 else c) 0 e.counts }

/-- The body of the `(idx, row)` loops for a fixed expert `ex`
(lines 156-178): read the selected expert id from the `ids` buffer, abort on
the `GGML_ASSERT` bounds check, and accumulate the row at
`i11 = idx % ne1, i12 = row` when its selected expert is `ex`.  The entry is
re-read from the map at every step because the C++ code holds a live
reference into it. -/
def collectExpertRow (wname : String) (ne0 ne1 : Nat) (n_as : Nat)
    (ids : Nat → Nat → Int) (data : Nat → Nat → Nat → ℚ) (ex : Nat)
    (c : Collector) (ir : Nat × Nat) : Except (CollectErr × Collector) Collector :=
  let excur := ids ir.1 ir.2
  if 0 ≤ excur ∧ excur < (n_as : Int) then
    if excur = (ex : Int) then
      let e := (lookupStats c.m_stats wname).getD Stats.init
      let e1 := accumExpertRow e ne0 ex (fun j => data (ir.1 % ne1) ir.2 j)
      Except.ok { c with m_stats := setStats c.m_stats wname e1 }
    else Except.ok c
  else Except.error (CollectErr.assertFailed, c)

/-- The routed (`GGML_OP_MUL_MAT_ID`) data path of
`IMatrixCollector::collect_imatrix` (lines 116-188): look the entry up,
increment `ncall` **first** (line 134), then size the arrays on first use or
abort with `exit(1)` on a size mismatch (a mismatched `n_as` with matching
size only warns), and finally loop over all experts, accumulating every row
routed to each and running the checkpoint trigger after each expert.
`ids idx row` is the selected expert for `(idx, row)` and
`data i11 i12 j` the `j`-th float of the `src1` row at `(i11, i12)`. -/
def collect_routed (c : Collector) (p : GptParams) (wname : String)
    (ne0 ne1 ne2 n_ids : Nat) (n_as : Nat)
    (ids : Nat → Nat → Int) (data : Nat → Nat → Nat → ℚ) :
    Except (CollectErr × Collector) Collector :=
  let e0 := (getOrInsert c.m_stats wname).1
  let stats0 := (getOrInsert c.m_stats wname).2
  let e1 := { e0 with ncall := e0.ncall + 1 }
  let c1 : Collector := { c with m_stats := setStats stats0 wname e1 }
  if e1.values = [] ∨ e1.values.length = ne0 * n_as then
    let e2 := { e1 with activations := List.replicate (ne0 * n_as) (0 : ℚ),
                        values := List.replicate (ne0 * n_as) (0 : ℚ),
                        counts := List.replicate (ne0 * n_as) (0 : Int),
                        n_as := n_as }
    let c2 := if e1.values = [] then { c1 with m_stats := setStats c1.m_stats wname e2 }
      else c1
    (List.range n_as).foldlM
      (fun cc ex => do
        let cc1 ← (((List.range n_ids).map
            (fun idx => (List.range ne2).map (fun row => (idx, row)))).flatten).foldlM
          (collectExpertRow wname ne0 ne1 n_as ids data ex) cc
        pure (triggerSave cc1 p wname))
      c2
  else
    Except.error (CollectErr.sizeMismatch, c1)

/-- `log_softmax` (lines 533-543): numerically-stable log-softmax of row
`logits` (vocabulary size `n_vocab`) at target token `tok`, returning
`(log_softmax, logit, prob)`.  The C++ maximum starts from `logits[0]` and
folds indices `1..n_vocab-1`; folding index 0 again is the same value. -/
noncomputable def log_softmax (n_vocab : Nat) (logits : Nat → ℝ) (tok : Nat) : ℝ × ℝ × ℝ :=
  let max_logit := (List.range n_vocab).foldl (fun m i => max m (logits i)) (logits 0)
  let sum_exp := ((List.range n_vocab).map (fun i => Real.exp (logits i - max_logit))).sum
  (logits tok - max_logit - Real.log sum_exp,
   logits tok,
   Real.exp (logits tok - max_logit) / sum_exp)

/-- Dot product of two activation vectors, as accumulated by the LIM loop. -/
noncomputable def dotProd (v w : List ℝ) : ℝ := ((v.zip w).map (fun q => q.1 * q.2)).sum

/-- Sum of squares of an activation vector (squared magnitude before `sqrtf`). -/
noncomputable def sumSq (v : List ℝ) : ℝ := (v.map (fun x => x * x)).sum

/-- The per-pair LIM computation of `IMatrixCollector::compute_lim`
(lines 459-496): `none` models a skipped pair (dimension mismatch or zero
magnitude, reported but not fatal), `some` the emitted score
`-cosine_similarity`.  The C++ code accumulates `dot_product`,
`input_magnitude` and `output_magnitude` in one loop over the common index
range, which is the zip of the two vectors. -/
noncomputable def limScore (input_acts output_acts : List ℝ) : Option ℝ :=
  if input_acts.length ≠ output_acts.length then none
  else
    let imag := Real.sqrt (sumSq input_acts)
    let omag := Real.sqrt (sumSq output_acts)
    if imag = 0 ∨ omag = 0 then none
    else some (-(dotProd input_acts output_acts / (imag * omag)))

/-- The scores printed for one tensor family (lines 452-496): `layers` is the
family's `(layer, last_activation)` list sorted by layer index; fewer than
two layers emit nothing, otherwise each adjacent pair emits its layer index
with either a score or a skip marker. -/
noncomputable def limFamilyScores (layers : List (Int × List ℝ)) : List (Int × Option ℝ) :=
  if layers.length < 2 then []
  else (List.range (layers.length - 1)).map (fun i =>
    ((layers.getD i (0, [])).1,
     limScore (layers.getD i (0, [])).2 (layers.getD (i + 1) (0, [])).2))

/-! ## List-level lemmas -/

theorem updIdx_length (f : Nat → α → α) (k : Nat) (l : List α) :
    (updIdx f k l).length = l.length := by
  induction l generalizing k with
  | nil => rfl
  | cons a l ih => simp [updIdx, ih]

theorem updIdx_getElem? (f : Nat → α → α) (k : Nat) (l : List α) (i : Nat) :
    (updIdx f k l)[i]? = (l[i]?).map (f (k + i)) := by
  induction l generalizing k i with
  | nil => simp [updIdx]
  | cons a l ih =>
    cases i with
    | zero => simp [updIdx]
    | succ i => simpa [updIdx, Nat.add_assoc, Nat.add_comm 1 i] using ih (k + 1) i

theorem updIdx_add_replicate (tmp : List ℚ) :
    updIdx (fun i v => if i < tmp.length then v + tmp.getD i 0 else v) 0
      (List.replicate tmp.length (0 : ℚ)) = tmp := by
  apply List.ext_getElem?
  intro i
  rw [updIdx_getElem?]
  rcases lt_or_ge i tmp.length with h | h
  · simp [List.getElem?_replicate, h, List.getD_eq_getElem?_getD,
      List.getElem?_eq_getElem h]
  · simp [List.getElem?_replicate, List.getElem?_eq_none h, Nat.not_lt.mpr h]

theorem updIdx_addc_replicate (n : Nat) (m : Int) :
    updIdx (fun i c => if i < n then c + m else c) 0 (List.replicate n (0 : Int)) =
      List.replicate n m := by
  apply List.ext_getElem?
  intro i
  rw [updIdx_getElem?]
  rcases lt_or_ge i n with h | h
  · simp [List.getElem?_replicate, h]
  · simp [List.getElem?_replicate, Nat.not_lt.mpr h]

theorem getD_map_range (f : Nat → ℚ) (n i : Nat) (h : i < n) (d : ℚ) :
    ((List.range n).map f).getD i d = f i := by
  rw [List.getD_eq_getElem?_getD, List.getElem?_map, List.getElem?_range h]
  rfl

/-! ## Association-list lemmas -/

theorem lookupStats_append_of_none (m m2 : List (String × Stats)) (k : String)
    (h : lookupStats m k = none) : lookupStats (m ++ m2) k = lookupStats m2 k := by
  induction m with
  | nil => rfl
  | cons p m ih =>
    obtain ⟨n, s⟩ := p
    by_cases hn : n = k
    · simp [lookupStats, hn] at h
    · simp only [lookupStats, if_neg hn] at h
      simpa [lookupStats, hn] using ih h

theorem setStats_append_of_none (m : List (String × Stats)) (k : String) (v w : Stats)
    (h : lookupStats m k = none) : setStats (m ++ [(k, v)]) k w = m ++ [(k, w)] := by
  induction m with
  | nil => simp [setStats]
  | cons p m ih =>
    obtain ⟨n, s⟩ := p
    by_cases hn : n = k
    · simp [lookupStats, hn] at h
    · simp only [lookupStats, if_neg hn] at h
      simp [setStats, hn, ih h]

theorem lookupStats_eq_of_nodup (l : List (String × Stats)) (k : String) (s : Stats)
    (hnd : (l.map Prod.fst).Nodup) (hmem : (k, s) ∈ l) : lookupStats l k = some s := by
  induction l with
  | nil => simp at hmem
  | cons p l ih =>
    obtain ⟨n, t⟩ := p
    simp only [List.map_cons, List.nodup_cons] at hnd
    rcases List.mem_cons.mp hmem with h | h
    · injection h with h1 h2
      subst h1; subst h2
      simp [lookupStats]
    · have hk : n ≠ k := by
        intro he
        exact hnd.1 (he ▸ (List.mem_map.mpr ⟨(k, s), h, rfl⟩))
      simp [lookupStats, hk, ih hnd.2 h]

theorem lookupStats_map_snd (l : List (String × Stats)) (g : Stats → Stats) (k : String) :
    lookupStats (l.map (fun kv => (kv.1, g kv.2))) k = (lookupStats l k).map g := by
  induction l with
  | nil => rfl
  | cons p l ih =>
    obtain ⟨n, s⟩ := p
    by_cases hn : n = k <;> simp [lookupStats, hn, ih]

/-! ## Codec lemmas -/

theorem readF32s_append (l : List ℚ) (rest : List Chunk) :
    readF32s l.length (l.map Chunk.f32 ++ rest) = some (l, rest) := by
  induction l with
  | nil => rfl
  | cons v l ih => simp [readF32s, ih]

theorem serializedValues_length (s : Stats) :
    (serializedValues s).length = s.values.length := by
  simp [serializedValues]

theorem processEntry_keep (s : Stats) (h1 : s.counts ≠ [])
    (h2 : ∀ x ∈ s.counts, x ≠ 0) : processEntry s = (true, s) := by
  have hz : countZeros s.counts = 0 := by
    simp only [countZeros, List.countP_eq_zero]
    intro a ha
    simp [h2 a ha]
  have hlen : s.counts.length ≠ 0 := by
    simpa [List.length_eq_zero] using h1
  simp [processEntry, hz, hlen, Ne.symm hlen]

theorem save_imatrix_keep (c : Collector) (pf : String)
    (hnd : (c.m_stats.map Prod.fst).Nodup)
    (hkeep : ∀ p ∈ c.m_stats, p.2.counts ≠ [] ∧ ∀ x ∈ p.2.counts, x ≠ 0) :
    save_imatrix c pf =
      (Chunk.i32 (c.m_stats.length : Int)
          :: (c.m_stats.map (fun p => entryChunks p.1 p.2)).flatten
          ++ [Chunk.i32 c.m_last_call, Chunk.i32 (pf.length : Int), Chunk.str pf],
       c) := by
  have hproc : c.m_stats.map (fun kv => (kv.1, processEntry kv.2)) =
      c.m_stats.map (fun kv => (kv.1, (true, kv.2))) := by
    apply List.map_congr_left
    intro p hp
    rw [processEntry_keep p.2 (hkeep p hp).1 (hkeep p hp).2]
  have hfilter : ((c.m_stats.map (fun kv => (kv.1, (true, kv.2)))).filter
      (fun kv => kv.2.1)) = c.m_stats.map (fun kv => (kv.1, (true, kv.2))) := by
    apply List.filter_eq_self.mpr
    intro a ha
    rcases List.mem_map.mp ha with ⟨p, _, rfl⟩
    rfl
  have hnew : (c.m_stats.map (fun kv => (kv.1, (true, kv.2)))).map
      (fun kv => (kv.1, kv.2.2)) = c.m_stats := by
    rw [List.map_map]
    have hcomp : ((fun kv : String × (Bool × Stats) => (kv.1, kv.2.2)) ∘
        (fun kv : String × Stats => (kv.1, (true, kv.2)))) = id :=
      funext (fun kv => Prod.mk.eta)
    rw [hcomp, List.map_id]
  have hbody : ((c.m_stats.map (fun kv => (kv.1, (true, kv.2)))).map
        (fun kv => kv.1)).map
        (fun name => entryChunks name ((lookupStats c.m_stats name).getD Stats.init))
      = c.m_stats.map (fun p => entryChunks p.1 p.2) := by
    rw [List.map_map, List.map_map]
    apply List.map_congr_left
    intro p hp
    have hmem : (p.1, p.2) ∈ c.m_stats := by rwa [Prod.mk.eta]
    simp only [Function.comp]
    rw [lookupStats_eq_of_nodup c.m_stats p.1 p.2 hnd hmem]
    rfl
  simp only [save_imatrix, hproc, hfilter, hnew, hbody, List.length_map]

theorem load_one_block (n : Nat) (m : List (String × Stats)) (name : String) (s : Stats)
    (rest : List Chunk) (hfresh : lookupStats m name = none) (hne : s.values ≠ []) :
    load_entries (n + 1) m (entryChunks name s ++ rest) =
      load_entries n (m ++ [(name, reloadedStats s)]) rest := by
  have hlen : (serializedValues s).length = s.values.length := serializedValues_length s
  have hpos : 0 < s.values.length := by
    cases hv : s.values with
    | nil => exact absurd hv hne
    | cons a l => simp [hv]
  have hnot : ¬((s.values.length : Int) < 1) := by
    omega
  have hlookup1 : lookupStats (m ++ [(name, (⟨[], [], [], 0, 1⟩ : Stats))]) name
      = some (⟨[], [], [], 0, 1⟩ : Stats) := by
    rw [lookupStats_append_of_none m _ name hfresh]
    simp [lookupStats]
  have hset1 : setStats (m ++ [(name, (⟨[], [], [], 0, 1⟩ : Stats))]) name
      (⟨[], List.replicate s.values.length (0 : ℚ),
        List.replicate s.values.length (0 : Int), 0, 1⟩ : Stats)
      = m ++ [(name, (⟨[], List.replicate s.values.length (0 : ℚ),
        List.replicate s.values.length (0 : Int), 0, 1⟩ : Stats))] :=
    setStats_append_of_none m name _ _ hfresh
  have hlookup2 : lookupStats (m ++ [(name, (⟨[], List.replicate s.values.length (0 : ℚ),
      List.replicate s.values.length (0 : Int), 0, 1⟩ : Stats))]) name
      = some (⟨[], List.replicate s.values.length (0 : ℚ),
        List.replicate s.values.length (0 : Int), 0, 1⟩ : Stats) := by
    rw [lookupStats_append_of_none m _ name hfresh]
    simp [lookupStats]
  have hset2 : setStats (m ++ [(name, (⟨[], List.replicate s.values.length (0 : ℚ),
      List.replicate s.values.length (0 : Int), 0, 1⟩ : Stats))]) name
      (mergeEntry (⟨[], List.replicate s.values.length (0 : ℚ),
        List.replicate s.values.length (0 : Int), 0, 1⟩ : Stats) s.ncall (serializedValues s))
      = m ++ [(name, mergeEntry (⟨[], List.replicate s.values.length (0 : ℚ),
        List.replicate s.values.length (0 : Int), 0, 1⟩ : Stats) s.ncall
          (serializedValues s))] :=
    setStats_append_of_none m name _ _ hfresh
  have hmerge : mergeEntry (⟨[], List.replicate s.values.length (0 : ℚ),
      List.replicate s.values.length (0 : Int), 0, 1⟩ : Stats) s.ncall (serializedValues s)
      = reloadedStats s := by
    have h1 : updIdx (fun i v =>
        if i < (serializedValues s).length then v + (serializedValues s).getD i 0 else v) 0
        (List.replicate s.values.length (0 : ℚ)) = serializedValues s := by
      rw [← hlen]
      exact updIdx_add_replicate (serializedValues s)
    have h2 : updIdx (fun i c =>
        if i < (serializedValues s).length then c + s.ncall else c) 0
        (List.replicate s.values.length (0 : Int)) = List.replicate s.values.length s.ncall := by
      rw [← hlen, updIdx_addc_replicate (serializedValues s).length s.ncall, hlen]
    simp only [mergeEntry, reloadedStats, h1, h2, zero_add]
  have hread : readF32s s.values.length
      (List.map Chunk.f32 (serializedValues s) ++ rest) = some (serializedValues s, rest) := by
    rw [← hlen]
    exact readF32s_append (serializedValues s) rest
  simp only [entryChunks, List.cons_append, List.append_assoc, List.nil_append]
  simp only [load_entries, readI32, readStr, Int.toNat_natCast, eq_self_iff_true, if_true,
    getOrInsert, hfresh, hnot, if_false, Stats.init]
  simp only [hlookup1, Option.getD_some]
  simp only [if_pos trivial]
  simp only [hset1, hlookup2, Option.getD_some, hread, hset2, hmerge]
  rw [setStats_append_of_none m name _ _ hfresh]

theorem load_entries_blocks (es : List (String × Stats)) (k : Nat)
    (m : List (String × Stats)) (rest : List Chunk)
    (hfresh : ∀ p ∈ es, lookupStats m p.1 = none)
    (hnd : (es.map Prod.fst).Nodup)
    (hwf : ∀ p ∈ es, p.2.values ≠ []) :
    load_entries (es.length + k) m
        ((es.map (fun p => entryChunks p.1 p.2)).flatten ++ rest)
      = load_entries k (m ++ es.map (fun p => (p.1, reloadedStats p.2))) rest := by
  induction es generalizing m with
  | nil => simp
  | cons q es ih =>
    obtain ⟨name, s⟩ := q
    have hq : es.length + 1 + k = (es.length + k) + 1 := by omega
    simp only [List.length_cons, List.map_cons, List.flatten_cons, List.append_assoc, hq]
    rw [load_one_block (es.length + k) m name s _
      (hfresh (name, s) (List.mem_cons_self _ _)) (hwf (name, s) (List.mem_cons_self _ _))]
    simp only [List.map_cons, List.nodup_cons] at hnd
    have hfresh2 : ∀ p ∈ es, lookupStats (m ++ [(name, reloadedStats s)]) p.1 = none := by
      intro p hp
      rw [lookupStats_append_of_none m _ p.1 (hfresh p (List.mem_cons_of_mem _ hp))]
      have hne : name ≠ p.1 := fun he =>
        hnd.1 (he ▸ List.mem_map.mpr ⟨p, hp, rfl⟩)
      simp [lookupStats, hne]
    rw [ih (m ++ [(name, reloadedStats s)]) hfresh2 hnd.2
      (fun p hp => hwf p (List.mem_cons_of_mem _ hp))]
    simp

theorem entryChunks_reloaded (name : String) (s : Stats)
    (hnc : 1 ≤ s.ncall) :
    entryChunks name (reloadedStats s) = entryChunks name s := by
  have hnc0 : ((s.ncall : Int) : ℚ) ≠ 0 := by
    have h : s.ncall ≠ 0 := by omega
    exact_mod_cast h
  have hser : serializedValues (reloadedStats s) = serializedValues s := by
    conv_lhs => rw [serializedValues]
    simp only [reloadedStats]
    rw [serializedValues_length s]
    conv_rhs => rw [serializedValues]
    apply List.map_congr_left
    intro i hi
    rw [List.mem_range] at hi
    have hrep : (List.replicate s.values.length s.ncall).getD i 0 = s.ncall := by
      rw [List.getD_eq_getElem?_getD, List.getElem?_replicate, if_pos hi]
      rfl
    have hgd : (serializedValues s).getD i 0
        = s.values.getD i 0 / ((s.counts.getD i 0 : Int) : ℚ) * ((s.ncall : Int) : ℚ) := by
      rw [serializedValues, getD_map_range _ _ _ hi]
    rw [hrep, hgd, div_mul_cancel₀ _ hnc0]
  simp only [entryChunks]
  rw [hser]
  simp only [reloadedStats, serializedValues_length]

/-- Claim C1 (amended).  Round-trip of the binary format: for a non-empty
accumulator whose entries are all kept verbatim by the encode threshold
policy (no zero counts, well-formed parallel arrays, `call_count ≥ 1`),
encoding with `save_imatrix`, decoding with `load_imatrix` into a fresh empty
accumulator, and encoding again reproduces the entry records and the
source-description field byte-identically — but the trailing
`last_call_count` field is re-encoded as `0` (the fresh collector's
`m_last_call`, which `load_imatrix` never restores), so the streams are
byte-identical exactly when the original collector's `m_last_call` was `0`,
not in general as the claim states. -/
theorem c1_round_trip (c : Collector) (pf : String)
    (hne : c.m_stats ≠ [])
    (hnd : (c.m_stats.map Prod.fst).Nodup)
    (hkeep : ∀ p ∈ c.m_stats, p.2.counts ≠ [] ∧ (∀ x ∈ p.2.counts, x ≠ 0)
      ∧ p.2.values.length = p.2.counts.length ∧ 1 ≤ p.2.ncall) :
    ∃ body c2,
      load_imatrix (save_imatrix c pf).1 (Collector.mk [] 0) = (true, c2) ∧
      (save_imatrix c pf).1
        = body ++ [Chunk.i32 c.m_last_call, Chunk.i32 (pf.length : Int), Chunk.str pf] ∧
      (save_imatrix c2 pf).1
        = body ++ [Chunk.i32 0, Chunk.i32 (pf.length : Int), Chunk.str pf] ∧
      (c.m_last_call = 0 → (save_imatrix c2 pf).1 = (save_imatrix c pf).1) := by
  have hkeep1 : ∀ p ∈ c.m_stats, p.2.counts ≠ [] ∧ ∀ x ∈ p.2.counts, x ≠ 0 :=
    fun p hp => ⟨(hkeep p hp).1, (hkeep p hp).2.1⟩
  have hsave := save_imatrix_keep c pf hnd hkeep1
  have hvne : ∀ p ∈ c.m_stats, p.2.values ≠ [] := by
    intro p hp
    have h1 := (hkeep p hp).1
    have h2 := (hkeep p hp).2.2.1
    intro hv
    apply h1
    rw [← List.length_eq_zero, ← h2, hv]
    rfl
  have hpos : 0 < c.m_stats.length := List.length_pos.mpr hne
  have hnltz : ¬((c.m_stats.length : Int) < 1) := by omega
  -- decoding the produced stream
  have hblocks := load_entries_blocks c.m_stats 0 []
    [Chunk.i32 c.m_last_call, Chunk.i32 (pf.length : Int), Chunk.str pf]
    (fun p _ => rfl) hnd hvne
  rw [Nat.add_zero, List.nil_append] at hblocks
  have hload : load_imatrix (save_imatrix c pf).1 (Collector.mk [] 0)
      = (true, Collector.mk (c.m_stats.map (fun p => (p.1, reloadedStats p.2))) 0) := by
    rw [hsave]
    simp only [load_imatrix, List.cons_append, readI32, Int.toNat_natCast, hnltz, if_false,
      hblocks, load_entries]
  -- re-encoding the decoded collector
  have hnd2 : ((c.m_stats.map (fun p => (p.1, reloadedStats p.2))).map Prod.fst).Nodup := by
    rw [List.map_map]
    exact hnd
  have hkeep2 : ∀ q ∈ c.m_stats.map (fun p => (p.1, reloadedStats p.2)),
      q.2.counts ≠ [] ∧ ∀ x ∈ q.2.counts, x ≠ 0 := by
    intro q hq
    rcases List.mem_map.mp hq with ⟨p, hp, rfl⟩
    constructor
    · simp only [reloadedStats]
      intro hrep
      have := List.length_eq_zero.mpr hrep
      rw [List.length_replicate] at this
      exact hvne p hp (List.length_eq_zero.mp this)
    · intro x hx
      simp only [reloadedStats] at hx
      rw [List.eq_of_mem_replicate hx]
      have := (hkeep p hp).2.2.2
      omega
  have hsave2 := save_imatrix_keep
    (Collector.mk (c.m_stats.map (fun p => (p.1, reloadedStats p.2))) 0) pf hnd2 hkeep2
  have hbody2 : (c.m_stats.map (fun p => (p.1, reloadedStats p.2))).map
      (fun p => entryChunks p.1 p.2) = c.m_stats.map (fun p => entryChunks p.1 p.2) := by
    rw [List.map_map]
    apply List.map_congr_left
    intro p hp
    exact entryChunks_reloaded p.1 p.2 (hkeep p hp).2.2.2
  refine ⟨Chunk.i32 (c.m_stats.length : Int)
      :: (c.m_stats.map (fun p => entryChunks p.1 p.2)).flatten,
    Collector.mk (c.m_stats.map (fun p => (p.1, reloadedStats p.2))) 0,
    hload, by rw [hsave], ?_, ?_⟩
  · rw [hsave2]
    simp [hbody2]
  · intro hlc
    rw [hsave2, hsave]
    simp [hbody2, hlc]

/-- Witness for C1: the round-trip theorem applied to a concrete one-entry
collector with `m_last_call = 1`. -/
theorem c1_round_trip_witness :
    ∃ body c2,
      load_imatrix
          (save_imatrix (Collector.mk [("a", Stats.mk [] [4] [2] 3 1)] 1) "").1
          (Collector.mk [] 0) = (true, c2) ∧
      (save_imatrix (Collector.mk [("a", Stats.mk [] [4] [2] 3 1)] 1) "").1
        = body ++ [Chunk.i32 1, Chunk.i32 (("".length : Nat) : Int), Chunk.str ""] ∧
      (save_imatrix c2 "").1
        = body ++ [Chunk.i32 0, Chunk.i32 (("".length : Nat) : Int), Chunk.str ""] ∧
      ((1 : Int) = 0 → (save_imatrix c2 "").1
        = (save_imatrix (Collector.mk [("a", Stats.mk [] [4] [2] 3 1)] 1) "").1) :=
  c1_round_trip (Collector.mk [("a", Stats.mk [] [4] [2] 3 1)] 1) ""
    (by decide) (by decide) (by decide)

/-- Counterexample for C1 as stated: for the reachable one-entry collector
with `m_last_call = 1` and no entry dropped or repaired, decoding the encoded
stream succeeds but re-encoding is **not** byte-identical (the trailing
`last_call_count` re-encodes as 0 instead of 1). -/
theorem c1_round_trip_counterexample :
    (load_imatrix (save_imatrix (Collector.mk [("a", Stats.mk [] [4] [1] 1 1)] 1) "").1
        (Collector.mk [] 0)).1 = true ∧
    (save_imatrix
        (load_imatrix (save_imatrix (Collector.mk [("a", Stats.mk [] [4] [1] 1 1)] 1) "").1
          (Collector.mk [] 0)).2 "").1
      ≠ (save_imatrix (Collector.mk [("a", Stats.mk [] [4] [1] 1 1)] 1) "").1 := by
  decide

/-- Claim C7 (amended).  The `int32` written after all entries is the
collector's `m_last_call` counter, not the maximum `call_count` over the kept
entries: `load_imatrix` never updates `m_last_call`, so for an accumulator
populated only by merging input files the field is written as 0 regardless of
the entries' call counts. -/
theorem c7_last_call_field (c : Collector) (pf : String) :
    (∃ body, (save_imatrix c pf).1
      = body ++ [Chunk.i32 c.m_last_call, Chunk.i32 (pf.length : Int), Chunk.str pf]) ∧
    ∀ st c0, (load_imatrix st c0).2.m_last_call = c0.m_last_call := by
  constructor
  · simp only [save_imatrix]
    exact ⟨_, rfl⟩
  · intro st c0
    cases hr : readI32 st with
    | none => simp [load_imatrix, hr]
    | some p =>
      obtain ⟨n, st1⟩ := p
      by_cases h : n < 1
      · simp [load_imatrix, hr, h]
      · simp [load_imatrix, hr, h]

/-- Witness for C7: the amended statement at a concrete collector. -/
theorem c7_last_call_field_witness :
    (∃ body, (save_imatrix (Collector.mk [("a", Stats.mk [] [4] [2] 3 1)] 7) "p").1
      = body ++ [Chunk.i32 7, Chunk.i32 (("p".length : Nat) : Int), Chunk.str "p"]) ∧
    ∀ st c0, (load_imatrix st c0).2.m_last_call = c0.m_last_call :=
  c7_last_call_field (Collector.mk [("a", Stats.mk [] [4] [2] 3 1)] 7) "p"

/-- Counterexample for C7 as stated: an accumulator populated only by merging
one input file (single entry, `call_count = 5`) writes `0` as the trailing
`last_call_count`, not the maximum call count 5 of the kept entries. -/
theorem c7_last_call_field_counterexample :
    (load_imatrix
        [Chunk.i32 1, Chunk.i32 1, Chunk.str "a", Chunk.i32 5, Chunk.i32 1, Chunk.f32 10]
        (Collector.mk [] 0)).1 = true ∧
    lookupStats (load_imatrix
        [Chunk.i32 1, Chunk.i32 1, Chunk.str "a", Chunk.i32 5, Chunk.i32 1, Chunk.f32 10]
        (Collector.mk [] 0)).2.m_stats "a" = some (Stats.mk [] [10] [5] 5 1) ∧
    (save_imatrix (load_imatrix
        [Chunk.i32 1, Chunk.i32 1, Chunk.str "a", Chunk.i32 5, Chunk.i32 1, Chunk.f32 10]
        (Collector.mk [] 0)).2 "").1
      = [Chunk.i32 1, Chunk.i32 1, Chunk.str "a", Chunk.i32 5, Chunk.i32 1, Chunk.f32 10,
         Chunk.i32 0, Chunk.i32 0, Chunk.str ""] := by
  decide

theorem processEntry_eq_repair (s : Stats)
    (h1 : 1 < s.n_as) (h2 : 0 < countZeros s.counts)
    (h3 : countZeros s.counts < s.counts.length)
    (h4 : (badExperts s.counts s.n_as (s.counts.length / s.n_as)).length
      < (s.n_as + 10) / 20) :
    processEntry s = (true,
      repairExperts s (badExperts s.counts s.n_as (s.counts.length / s.n_as))
        (s.counts.length / s.n_as)) := by
  have h0 : ¬(s.counts.length = 0) := by omega
  have hzn : ¬(countZeros s.counts = s.counts.length) := by omega
  simp only [processEntry, h0, if_false, hzn, h2, if_true, h1, h4]

theorem processEntry_eq_drop (s : Stats)
    (h1 : 1 < s.n_as) (h2 : 0 < countZeros s.counts)
    (h3 : countZeros s.counts < s.counts.length)
    (h4 : ¬((badExperts s.counts s.n_as (s.counts.length / s.n_as)).length
      < (s.n_as + 10) / 20)) :
    processEntry s = (false, s) := by
  have h0 : ¬(s.counts.length = 0) := by omega
  have hzn : ¬(countZeros s.counts = s.counts.length) := by omega
  simp only [processEntry, h0, if_false, hzn, h2, if_true, h1, h4]

/-- Claim C2 (amended).  A routed entry (`expert_count > 1`) with partial zero
counts is kept (after repair) exactly when the number of experts containing a
zero-count element is strictly below `round(expert_count * 0.05)`, and
dropped otherwise.  In particular, an entry with `expert_count = 20` and
exactly one bad expert is **dropped** — `1 < round(20 * 0.05) = 1` fails —
contrary to the claim's boundary example (see the counterexample); with
`expert_count = 40` one bad expert is kept and repaired. -/
theorem c2_threshold_policy (s : Stats)
    (h1 : 1 < s.n_as) (h2 : 0 < countZeros s.counts)
    (h3 : countZeros s.counts < s.counts.length) :
    ((processEntry s).1 = true ↔
      (badExperts s.counts s.n_as (s.counts.length / s.n_as)).length
        < (s.n_as + 10) / 20) := by
  by_cases h4 : (badExperts s.counts s.n_as (s.counts.length / s.n_as)).length
      < (s.n_as + 10) / 20
  · rw [processEntry_eq_repair s h1 h2 h3 h4]
    simpa using h4
  · rw [processEntry_eq_drop s h1 h2 h3 h4]
    simpa using h4

/-- Witness for C2: a routed entry with 40 experts, one of which is fully
zero, is kept (`1 < round(40 * 0.05) = 2`). -/
theorem c2_threshold_policy_witness :
    ((processEntry (Stats.mk [] (List.replicate 40 1)
        ((0 : Int) :: List.replicate 39 1) 3 40)).1 = true ↔
      (badExperts ((0 : Int) :: List.replicate 39 1) 40 1).length < 2) :=
  c2_threshold_policy (Stats.mk [] (List.replicate 40 1) ((0 : Int) :: List.replicate 39 1) 3 40)
    (by decide) (by decide) (by decide)

/-- Counterexample for C2 as stated: an entry with `expert_count = 20` and
exactly one expert fully zero is dropped by the encoder (the whole snapshot
stores zero entries), not kept and repaired. -/
theorem c2_threshold_policy_counterexample :
    (processEntry (Stats.mk [] (List.replicate 20 1)
        ((0 : Int) :: List.replicate 19 1) 3 20)).1 = false ∧
    (save_imatrix (Collector.mk
        [("blk.0.ffn_gate_exps.weight", Stats.mk [] (List.replicate 20 1)
          ((0 : Int) :: List.replicate 19 1) 3 20)] 3) "").1
      = [Chunk.i32 0, Chunk.i32 3, Chunk.i32 0, Chunk.str ""] := by
  constructor
  · decide
  · decide

/-- Claim C5 (amended).  When the encoder repairs a routed entry it
overwrites **every** element of each bad expert's block — both the sample
counts and the sum-of-squares are set to 1, including elements whose
accumulated count was nonzero — while every element outside the bad experts'
blocks is left unchanged.  (The claim said only the zero-count elements of
the bad experts are forced to 1; the counterexample shows a nonzero-count
element being overwritten.) -/
theorem c5_repair_scope (s : Stats) (i : Nat)
    (h1 : 1 < s.n_as) (h2 : 0 < countZeros s.counts)
    (h3 : countZeros s.counts < s.counts.length)
    (h4 : (badExperts s.counts s.n_as (s.counts.length / s.n_as)).length
      < (s.n_as + 10) / 20) :
    (processEntry s).1 = true ∧
    (i / (s.counts.length / s.n_as) ∈ badExperts s.counts s.n_as (s.counts.length / s.n_as) →
      (processEntry s).2.counts[i]? = (s.counts[i]?).map (fun _ => 1) ∧
      (processEntry s).2.values[i]? = (s.values[i]?).map (fun _ => 1)) ∧
    (i / (s.counts.length / s.n_as) ∉ badExperts s.counts s.n_as (s.counts.length / s.n_as) →
      (processEntry s).2.counts[i]? = s.counts[i]? ∧
      (processEntry s).2.values[i]? = s.values[i]?) := by
  rw [processEntry_eq_repair s h1 h2 h3 h4]
  refine ⟨rfl, fun hmem => ?_, fun hmem => ?_⟩
  · simp only [repairExperts, updIdx_getElem?, Nat.zero_add]
    constructor
    · cases s.counts[i]? <;> simp [hmem]
    · cases s.values[i]? <;> simp [hmem]
  · simp only [repairExperts, updIdx_getElem?, Nat.zero_add]
    constructor
    · cases s.counts[i]? <;> simp [hmem]
    · cases s.values[i]? <;> simp [hmem]

/-- Witness for C5: the repair theorem applied to a 30-expert entry
(blocks of 2) whose first expert has counts `[0, 5]`, at index `i = 1`. -/
theorem c5_repair_scope_witness :
    (processEntry (Stats.mk [] (List.replicate 60 2)
        ((0 : Int) :: (5 : Int) :: List.replicate 58 1) 3 30)).1 = true ∧
    ((1 : Nat) / 2 ∈ badExperts ((0 : Int) :: (5 : Int) :: List.replicate 58 1) 30 2 →
      (processEntry (Stats.mk [] (List.replicate 60 2)
        ((0 : Int) :: (5 : Int) :: List.replicate 58 1) 3 30)).2.counts[1]?
        = ((((0 : Int) :: (5 : Int) :: List.replicate 58 1 : List Int))[1]?).map (fun _ => 1) ∧
      (processEntry (Stats.mk [] (List.replicate 60 2)
        ((0 : Int) :: (5 : Int) :: List.replicate 58 1) 3 30)).2.values[1]?
        = (((List.replicate 60 (2 : ℚ)))[1]?).map (fun _ => 1)) ∧
    ((1 : Nat) / 2 ∉ badExperts ((0 : Int) :: (5 : Int) :: List.replicate 58 1) 30 2 →
      (processEntry (Stats.mk [] (List.replicate 60 2)
        ((0 : Int) :: (5 : Int) :: List.replicate 58 1) 3 30)).2.counts[1]?
        = (((0 : Int) :: (5 : Int) :: List.replicate 58 1 : List Int))[1]? ∧
      (processEntry (Stats.mk [] (List.replicate 60 2)
        ((0 : Int) :: (5 : Int) :: List.replicate 58 1) 3 30)).2.values[1]?
        = ((List.replicate 60 (2 : ℚ)))[1]?) :=
  c5_repair_scope (Stats.mk [] (List.replicate 60 2)
      ((0 : Int) :: (5 : Int) :: List.replicate 58 1) 3 30) 1
    (by decide) (by decide) (by decide) (by decide)

/-- Counterexample for C5 as stated: in the repaired entry the bad expert's
element with accumulated count 5 and sum-of-squares 2 does **not** keep its
values — both are overwritten with 1. -/
theorem c5_repair_scope_counterexample :
    (processEntry (Stats.mk [] (List.replicate 60 2)
        ((0 : Int) :: (5 : Int) :: List.replicate 58 1) 3 30)).1 = true ∧
    (processEntry (Stats.mk [] (List.replicate 60 2)
        ((0 : Int) :: (5 : Int) :: List.replicate 58 1) 3 30)).2.counts.getD 1 0 = 1 ∧
    (processEntry (Stats.mk [] (List.replicate 60 2)
        ((0 : Int) :: (5 : Int) :: List.replicate 58 1) 3 30)).2.values.getD 1 0 = 1 := by
  refine ⟨by decide, by decide, by decide⟩

theorem repairExperts_no_zeros (s : Stats)
    (hdvd : s.counts.length = s.n_as * (s.counts.length / s.n_as)) :
    ∀ x ∈ (repairExperts s (badExperts s.counts s.n_as (s.counts.length / s.n_as))
        (s.counts.length / s.n_as)).counts, x ≠ 0 := by
  intro x hx
  rcases List.mem_iff_getElem?.mp hx with ⟨i, hi⟩
  simp only [repairExperts, updIdx_getElem?, Nat.zero_add] at hi
  rcases Option.map_eq_some'.mp hi with ⟨y, hy, hfy⟩
  by_cases hm : i / (s.counts.length / s.n_as)
      ∈ badExperts s.counts s.n_as (s.counts.length / s.n_as)
  · rw [if_pos hm] at hfy
    omega
  · rw [if_neg hm] at hfy
    subst hfy
    intro hy0
    subst hy0
    rcases List.getElem?_eq_some.mp hy with ⟨hilen, _⟩
    have hnper : 0 < s.counts.length / s.n_as := by
      rcases Nat.eq_zero_or_pos (s.counts.length / s.n_as) with h | h
      · rw [h, Nat.mul_zero] at hdvd
        omega
      · exact h
    apply hm
    have hb : i / (s.counts.length / s.n_as) < s.n_as := by
      rw [Nat.div_lt_iff_lt_mul hnper]
      calc i < s.counts.length := hilen
        _ = s.n_as * (s.counts.length / s.n_as) := hdvd
  -- the zero element itself lies in the block of its own expert
    have hmod : (s.counts.length / s.n_as) * (i / (s.counts.length / s.n_as))
        + i % (s.counts.length / s.n_as) = i := Nat.div_add_mod i _
    have hjlt : i % (s.counts.length / s.n_as) < s.counts.length / s.n_as :=
      Nat.mod_lt i hnper
    have hblock : ((s.counts.drop ((i / (s.counts.length / s.n_as))
          * (s.counts.length / s.n_as))).take
          (s.counts.length / s.n_as))[i % (s.counts.length / s.n_as)]? = some 0 := by
      rw [List.getElem?_take, if_pos hjlt, List.getElem?_drop]
      rw [show i / (s.counts.length / s.n_as) * (s.counts.length / s.n_as)
          + i % (s.counts.length / s.n_as) = i from by rw [Nat.mul_comm]; exact hmod]
      exact hy
    have hzmem : (0 : Int) ∈ (s.counts.drop ((i / (s.counts.length / s.n_as))
        * (s.counts.length / s.n_as))).take (s.counts.length / s.n_as) :=
      List.getElem?_mem hblock
    simp only [badExperts, List.mem_filter, List.mem_range]
    refine ⟨hb, ?_⟩
    simp only [decide_eq_true_eq, countZeros]
    rw [List.countP_pos_iff]
    exact ⟨0, hzmem, by simp⟩

/-- Claim C10.  `save_imatrix` is not read-only on the accumulator: when it
repairs a partially observed routed entry it overwrites the entry's sample
counts and sums of squares in the live statistics map (the post-state of
`save_imatrix`), and the repaired entry — now free of zero counts — is kept
verbatim by every subsequent snapshot, so the forced 1-values persist. -/
theorem c10_save_mutation (c : Collector) (pf name : String) (s : Stats)
    (hmem : lookupStats c.m_stats name = some s)
    (h1 : 1 < s.n_as) (h2 : 0 < countZeros s.counts)
    (h3 : countZeros s.counts < s.counts.length)
    (h4 : (badExperts s.counts s.n_as (s.counts.length / s.n_as)).length
      < (s.n_as + 10) / 20)
    (hdvd : s.counts.length = s.n_as * (s.counts.length / s.n_as)) :
    lookupStats (save_imatrix c pf).2.m_stats name
      = some (repairExperts s (badExperts s.counts s.n_as (s.counts.length / s.n_as))
          (s.counts.length / s.n_as)) ∧
    processEntry (repairExperts s (badExperts s.counts s.n_as (s.counts.length / s.n_as))
        (s.counts.length / s.n_as))
      = (true, repairExperts s (badExperts s.counts s.n_as (s.counts.length / s.n_as))
          (s.counts.length / s.n_as)) := by
  constructor
  · have hmap : (save_imatrix c pf).2.m_stats
        = c.m_stats.map (fun kv => (kv.1, (processEntry kv.2).2)) := by
      simp only [save_imatrix, List.map_map]
      rfl
    rw [hmap, lookupStats_map_snd c.m_stats (fun t => (processEntry t).2) name, hmem,
      Option.map_some', processEntry_eq_repair s h1 h2 h3 h4]
  · apply processEntry_keep
    · have hlen : (repairExperts s (badExperts s.counts s.n_as (s.counts.length / s.n_as))
          (s.counts.length / s.n_as)).counts.length = s.counts.length := by
        simp only [repairExperts, updIdx_length]
      intro hnil
      rw [← List.length_eq_zero, hlen] at hnil
      omega
    · exact repairExperts_no_zeros s hdvd

/-- Witness for C10: the mutation theorem at a concrete collector holding a
30-expert entry whose first expert has counts `[0, 5]`. -/
theorem c10_save_mutation_witness :
    lookupStats (save_imatrix (Collector.mk [("w", Stats.mk [] (List.replicate 60 2)
        ((0 : Int) :: (5 : Int) :: List.replicate 58 1) 3 30)] 0) "p").2.m_stats "w"
      = some (repairExperts (Stats.mk [] (List.replicate 60 2)
          ((0 : Int) :: (5 : Int) :: List.replicate 58 1) 3 30)
          (badExperts ((0 : Int) :: (5 : Int) :: List.replicate 58 1) 30 2) 2) ∧
    processEntry (repairExperts (Stats.mk [] (List.replicate 60 2)
        ((0 : Int) :: (5 : Int) :: List.replicate 58 1) 3 30)
        (badExperts ((0 : Int) :: (5 : Int) :: List.replicate 58 1) 30 2) 2)
      = (true, repairExperts (Stats.mk [] (List.replicate 60 2)
          ((0 : Int) :: (5 : Int) :: List.replicate 58 1) 3 30)
          (badExperts ((0 : Int) :: (5 : Int) :: List.replicate 58 1) 30 2) 2) :=
  c10_save_mutation (Collector.mk [("w", Stats.mk [] (List.replicate 60 2)
      ((0 : Int) :: (5 : Int) :: List.replicate 58 1) 3 30)] 0) "p" "w"
    (Stats.mk [] (List.replicate 60 2) ((0 : Int) :: (5 : Int) :: List.replicate 58 1) 3 30)
    (by decide) (by decide) (by decide) (by decide) (by decide) (by decide)

/-- Claim C4 (amended).  Failure behaviour of `load_imatrix` differs by
field: a read failure at an entry's `ncall`/`nval` fields or value block
resets the whole statistics map to empty, but a failure while reading an
entry's **name** (or its length) returns failure *without* resetting, leaving
every entry merged earlier in the same call visible.  Concretely, for a
stream announcing one entry more than the well-formed records it contains:
truncation at the next entry's name leaves the merged entries in the map,
while truncation right after a complete name wipes the map. -/
theorem c4_load_failure_reset (es : List (String × Stats))
    (hnd : (es.map Prod.fst).Nodup)
    (hwf : ∀ p ∈ es, p.2.values ≠ [])
    (len : Int) (_hlen : 0 < len) (nm : String) :
    (load_imatrix
        (Chunk.i32 ((es.length : Int) + 1)
          :: ((es.map (fun p => entryChunks p.1 p.2)).flatten ++ [Chunk.i32 len]))
        (Collector.mk [] 0)
      = (false, Collector.mk (es.map (fun p => (p.1, reloadedStats p.2))) 0)) ∧
    (load_imatrix
        (Chunk.i32 ((es.length : Int) + 1)
          :: ((es.map (fun p => entryChunks p.1 p.2)).flatten
              ++ [Chunk.i32 (nm.length : Int), Chunk.str nm]))
        (Collector.mk [] 0)
      = (false, Collector.mk [] 0)) := by
  have hnneg : ¬(((es.length : Int) + 1) < 1) := by omega
  have htn : ((es.length : Int) + 1).toNat = es.length + 1 := by omega
  have hblocks1 := load_entries_blocks es 1 [] [Chunk.i32 len] (fun p _ => rfl) hnd hwf
  have hblocks2 := load_entries_blocks es 1 [] [Chunk.i32 (nm.length : Int), Chunk.str nm]
    (fun p _ => rfl) hnd hwf
  rw [List.nil_append] at hblocks1 hblocks2
  constructor
  · simp only [load_imatrix, readI32, hnneg, if_false, htn]
    rw [hblocks1, show (1 : Nat) = 0 + 1 from rfl]
    simp only [load_entries, readI32]
    rfl
  · simp only [load_imatrix, readI32, hnneg, if_false, htn]
    rw [hblocks2, show (1 : Nat) = 0 + 1 from rfl]
    simp only [load_entries, readI32, readStr, Int.toNat_natCast, eq_self_iff_true]
    simp only [if_pos trivial]

/-- Witness for C4: the amended statement at one concrete well-formed entry,
truncation length 7, and follow-up name `"b"`. -/
theorem c4_load_failure_reset_witness :
    (load_imatrix
        (Chunk.i32 (([("a", Stats.mk [] [4] [2] 3 1)].length : Int) + 1)
          :: (([("a", Stats.mk [] [4] [2] 3 1)].map
                (fun p => entryChunks p.1 p.2)).flatten ++ [Chunk.i32 7]))
        (Collector.mk [] 0)
      = (false, Collector.mk ([("a", Stats.mk [] [4] [2] 3 1)].map
          (fun p => (p.1, reloadedStats p.2))) 0)) ∧
    (load_imatrix
        (Chunk.i32 (([("a", Stats.mk [] [4] [2] 3 1)].length : Int) + 1)
          :: (([("a", Stats.mk [] [4] [2] 3 1)].map
                (fun p => entryChunks p.1 p.2)).flatten
              ++ [Chunk.i32 (("b".length : Nat) : Int), Chunk.str "b"]))
        (Collector.mk [] 0)
      = (false, Collector.mk [] 0)) :=
  c4_load_failure_reset [("a", Stats.mk [] [4] [2] 3 1)] (by decide)
    (by decide) 7 (by decide) "b"

/-- Counterexample for C4 as stated: a stream announcing two entries but
truncated at the second entry's name makes `load_imatrix` return failure
with the first entry still merged — the accumulator is *not* reset to
empty. -/
theorem c4_load_failure_reset_counterexample :
    load_imatrix
        [Chunk.i32 2, Chunk.i32 1, Chunk.str "a", Chunk.i32 1, Chunk.i32 1, Chunk.f32 4,
         Chunk.i32 3]
        (Collector.mk [] 0)
      = (false, Collector.mk [("a", Stats.mk [] [4] [1] 1 1)] 0) ∧
    (load_imatrix
        [Chunk.i32 2, Chunk.i32 1, Chunk.str "a", Chunk.i32 1, Chunk.i32 1, Chunk.f32 4,
         Chunk.i32 3]
        (Collector.mk [] 0)).2.m_stats ≠ [] := by
  refine ⟨by decide, by decide⟩

/-- Claim C3 (amended).  Observing a tensor whose activation length differs
from the established entry aborts with the fatal size error, but the two
paths differ in what has already been mutated at that point: in the plain
path the collector is completely untouched, while in the routed
(`MUL_MAT_ID`) path the entry's `call_count` has already been incremented
(`++e.ncall` precedes the size check); the activation, sum-of-squares and
count arrays are unchanged in both paths. -/
theorem c3_size_mismatch_order :
    (∀ (c : Collector) (p : GptParams) (wname : String) (ne0 : Nat)
        (rows : List (List ℚ)) (e : Stats),
        lookupStats c.m_stats wname = some e → e.values ≠ [] → e.values.length ≠ ne0 →
        collect_plain c p wname ne0 rows = Except.error (CollectErr.sizeMismatch, c)) ∧
    (∀ (c : Collector) (p : GptParams) (wname : String) (ne0 ne1 ne2 n_ids n_as : Nat)
        (ids : Nat → Nat → Int) (data : Nat → Nat → Nat → ℚ) (e : Stats),
        lookupStats c.m_stats wname = some e → e.values ≠ [] → e.values.length ≠ ne0 * n_as →
        collect_routed c p wname ne0 ne1 ne2 n_ids n_as ids data
          = Except.error (CollectErr.sizeMismatch,
              Collector.mk (setStats c.m_stats wname
                (Stats.mk e.activations e.values e.counts (e.ncall + 1) e.n_as))
                c.m_last_call)) := by
  constructor
  · intro c p wname ne0 rows e hlk hne hlen
    have hcond : ¬(e.values = [] ∨ e.values.length = ne0) := by
      push_neg
      exact ⟨hne, hlen⟩
    simp only [collect_plain, getOrInsert, hlk, hcond, if_false]
  · intro c p wname ne0 ne1 ne2 n_ids n_as ids data e hlk hne hlen
    have hcond : ¬(e.values = [] ∨ e.values.length = ne0 * n_as) := by
      push_neg
      exact ⟨hne, hlen⟩
    simp only [collect_routed, getOrInsert, hlk, hcond, if_false]

/-- Witness for C3: both statements of the amended theorem applied at a
concrete collector with an established entry of length 1 observed with an
incompatible shape. -/
theorem c3_size_mismatch_order_witness :
    collect_plain (Collector.mk [("w", Stats.mk [0] [0] [0] 0 1)] 0)
        (GptParams.mk 10 0 "") "w" 2 [[1, 1]]
      = Except.error (CollectErr.sizeMismatch,
          Collector.mk [("w", Stats.mk [0] [0] [0] 0 1)] 0) ∧
    collect_routed (Collector.mk [("w", Stats.mk [0] [0] [0] 0 1)] 0)
        (GptParams.mk 10 0 "") "w" 2 1 1 1 2 (fun _ _ => 0) (fun _ _ _ => 0)
      = Except.error (CollectErr.sizeMismatch,
          Collector.mk (setStats [("w", Stats.mk [0] [0] [0] 0 1)] "w"
            (Stats.mk [0] [0] [0] (0 + 1) 1)) 0) :=
  ⟨c3_size_mismatch_order.1 (Collector.mk [("w", Stats.mk [0] [0] [0] 0 1)] 0)
      (GptParams.mk 10 0 "") "w" 2 [[1, 1]] (Stats.mk [0] [0] [0] 0 1)
      (by decide) (by decide) (by decide),
   c3_size_mismatch_order.2 (Collector.mk [("w", Stats.mk [0] [0] [0] 0 1)] 0)
      (GptParams.mk 10 0 "") "w" 2 1 1 1 2 (fun _ _ => 0) (fun _ _ _ => 0)
      (Stats.mk [0] [0] [0] 0 1) (by decide) (by decide) (by decide)⟩

/-- Counterexample for C3 as stated: in the routed path the fatal size error
leaves the collector with the entry's `call_count` already incremented — the
state at abort differs from the state before the call. -/
theorem c3_size_mismatch_order_counterexample :
    collect_routed (Collector.mk [("w", Stats.mk [0] [0] [0] 0 1)] 0)
        (GptParams.mk 10 0 "") "w" 2 1 1 1 2 (fun _ _ => 0) (fun _ _ _ => 0)
      = Except.error (CollectErr.sizeMismatch,
          Collector.mk [("w", Stats.mk [0] [0] [0] 1 1)] 0) ∧
    (Collector.mk [("w", Stats.mk [0] [0] [0] 1 1)] 0)
      ≠ (Collector.mk [("w", Stats.mk [0] [0] [0] 0 1)] 0) := by
  refine ⟨rfl, by decide⟩

theorem accumRow_fresh (xs : List ℚ) (nc : Int) (na : Nat) :
    accumRow (Stats.mk (List.replicate xs.length 0) (List.replicate xs.length 0)
        (List.replicate xs.length 0) nc na) xs
      = Stats.mk xs (xs.map (fun x => x * x)) (List.replicate xs.length 1) nc na := by
  have hact : updIdx (fun j a => xs.getD j a) 0 (List.replicate xs.length (0 : ℚ)) = xs := by
    apply List.ext_getElem?
    intro i
    rw [updIdx_getElem?]
    rcases lt_or_ge i xs.length with h | h
    · simp [List.getElem?_replicate, h, List.getD_eq_getElem?_getD, List.getElem?_eq_getElem h]
    · simp [List.getElem?_replicate, Nat.not_lt.mpr h, List.getElem?_eq_none h]
  have hval : updIdx (fun j v => v + xs.getD j 0 * xs.getD j 0) 0
      (List.replicate xs.length (0 : ℚ)) = xs.map (fun x => x * x) := by
    apply List.ext_getElem?
    intro i
    rw [updIdx_getElem?]
    rcases lt_or_ge i xs.length with h | h
    · simp [List.getElem?_replicate, h, List.getD_eq_getElem?_getD, List.getElem?_eq_getElem h,
        List.getElem?_map]
    · simp [List.getElem?_replicate, Nat.not_lt.mpr h, List.getElem?_eq_none h,
        List.getElem?_eq_none (by simpa using h : (xs.map (fun x => x * x)).length ≤ i)]
  have hcnt : updIdx (fun _ c => c + 1) 0 (List.replicate xs.length (0 : Int))
      = List.replicate xs.length 1 := by
    apply List.ext_getElem?
    intro i
    rw [updIdx_getElem?]
    rcases lt_or_ge i xs.length with h | h
    · simp [List.getElem?_replicate, h]
    · simp [List.getElem?_replicate, Nat.not_lt.mpr h]
  simp only [accumRow, hact, hval, hcnt]

theorem serializedValues_once (xs : List ℚ) :
    serializedValues (Stats.mk xs (xs.map (fun x => x * x)) (List.replicate xs.length 1) 1 1)
      = xs.map (fun x => x * x) := by
  simp only [serializedValues]
  apply List.ext_getElem?
  intro i
  rcases lt_or_ge i xs.length with h | h
  · rw [List.getElem?_map, List.getElem?_range (by simpa using h)]
    simp only [Option.map_some']
    rw [List.getElem?_map, List.getElem?_eq_getElem h, Option.map_some']
    have h1 : (xs.map (fun x => x * x)).getD i 0 = xs[i] * xs[i] := by
      rw [List.getD_eq_getElem?_getD, List.getElem?_map, List.getElem?_eq_getElem h]
      rfl
    have h2 : (List.replicate xs.length (1 : Int)).getD i 0 = 1 := by
      rw [List.getD_eq_getElem?_getD, List.getElem?_replicate, if_pos h]
      rfl
    rw [h1, h2]
    norm_num
  · rw [List.getElem?_map, List.getElem?_map]
    rw [List.getElem?_eq_none (by simpa using h : (List.range (xs.map (fun x => x * x)).length).length ≤ i),
      List.getElem?_eq_none (by simpa using h : xs.length ≤ i)]
    rfl

theorem lookupStats_processed (l : List (String × Stats)) (k : String) :
    lookupStats ((l.map (fun kv => (kv.1, processEntry kv.2))).map (fun kv => (kv.1, kv.2.2))) k
      = (lookupStats l k).map (fun s => (processEntry s).2) := by
  induction l with
  | nil => rfl
  | cons p l ih =>
    obtain ⟨n, s⟩ := p
    by_cases hn : n = k
    · simp only [List.map_cons, lookupStats, if_pos hn, Option.map_some']
    · simp only [List.map_cons, lookupStats, if_neg hn]
      exact ih

/-- Claim C6.  Every entry kept in a snapshot is written with the derived
value vector `(sum_of_squares[i] / sample_counts[i]) * call_count` (its
serialized record appears verbatim in the produced stream), and in
particular a tensor observed exactly once — `call_count = 1` and all
`sample_counts = 1` after a single-row observation — is encoded as the raw
squared activations themselves. -/
theorem c6_serialized_value_formula (p : GptParams) (pf wname : String) (xs : List ℚ)
    (hx : xs ≠ []) :
    (∀ (c : Collector) (name : String) (s : Stats),
        (c.m_stats.map Prod.fst).Nodup → (name, s) ∈ c.m_stats → (processEntry s).1 = true →
        ∃ l1 l2, (save_imatrix c pf).1
          = l1 ++ entryChunks name (processEntry s).2 ++ l2) ∧
    ∃ c1, collect_plain (Collector.mk [] 0) p wname xs.length [xs] = Except.ok c1 ∧
      lookupStats c1.m_stats wname
        = some (Stats.mk xs (xs.map (fun x => x * x)) (List.replicate xs.length 1) 1 1) ∧
      (save_imatrix c1 pf).1
        = Chunk.i32 1
            :: (entryChunks wname (Stats.mk xs (xs.map (fun x => x * x))
                  (List.replicate xs.length 1) 1 1)
              ++ [Chunk.i32 1, Chunk.i32 (pf.length : Int), Chunk.str pf]) ∧
      serializedValues (Stats.mk xs (xs.map (fun x => x * x)) (List.replicate xs.length 1) 1 1)
        = xs.map (fun x => x * x) := by
  constructor
  · intro c name s hnd hmem hkept
    have hlk : lookupStats c.m_stats name = some s := lookupStats_eq_of_nodup _ _ _ hnd hmem
    simp only [save_imatrix]
    have hname_mem : name ∈ ((c.m_stats.map (fun kv => (kv.1, processEntry kv.2))).filter
        (fun kv => kv.2.1)).map (fun kv => kv.1) := by
      apply List.mem_map.mpr
      refine ⟨(name, processEntry s), List.mem_filter.mpr ⟨?_, by simpa using hkept⟩, rfl⟩
      exact List.mem_map.mpr ⟨(name, s), hmem, rfl⟩
    have hlknew : lookupStats ((c.m_stats.map (fun kv => (kv.1, processEntry kv.2))).map
        (fun kv => (kv.1, kv.2.2))) name = some ((processEntry s).2) := by
      rw [lookupStats_processed, hlk]
      rfl
    have hmem_body : entryChunks name
        ((lookupStats ((c.m_stats.map (fun kv => (kv.1, processEntry kv.2))).map
          (fun kv => (kv.1, kv.2.2))) name).getD Stats.init)
        ∈ (((c.m_stats.map (fun kv => (kv.1, processEntry kv.2))).filter
            (fun kv => kv.2.1)).map (fun kv => kv.1)).map
          (fun nm => entryChunks nm
            ((lookupStats ((c.m_stats.map (fun kv => (kv.1, processEntry kv.2))).map
              (fun kv => (kv.1, kv.2.2))) nm).getD Stats.init)) :=
      List.mem_map_of_mem _ hname_mem
    rcases List.append_of_mem hmem_body with ⟨u, v, huv⟩
    refine ⟨Chunk.i32 (((((c.m_stats.map (fun kv => (kv.1, processEntry kv.2))).filter
        (fun kv => kv.2.1)).map (fun kv => kv.1)).length : Nat) : Int) :: u.flatten,
      v.flatten ++ [Chunk.i32 c.m_last_call, Chunk.i32 (pf.length : Int), Chunk.str pf], ?_⟩
    rw [huv, List.flatten_append, List.flatten_cons, hlknew]
    simp [List.append_assoc]
  · have hn : xs.length ≠ 0 := fun h => hx (List.length_eq_zero.mp h)
    have hnd1 : (([(wname, Stats.mk xs (xs.map (fun x => x * x))
        (List.replicate xs.length 1) 1 1)]).map Prod.fst).Nodup := by simp
    have hkeep1 : ∀ q ∈ [(wname, Stats.mk xs (xs.map (fun x => x * x))
        (List.replicate xs.length 1) 1 1)],
        q.2.counts ≠ [] ∧ ∀ x ∈ q.2.counts, x ≠ 0 := by
      intro q hq
      rw [List.mem_singleton] at hq
      subst hq
      refine ⟨?_, ?_⟩
      · intro hrep
        have := List.length_eq_zero.mpr hrep
        rw [List.length_replicate] at this
        exact hn this
      · intro x hx2
        rw [List.eq_of_mem_replicate hx2]
        omega
    have hsk := save_imatrix_keep (Collector.mk [(wname, Stats.mk xs
        (xs.map (fun x => x * x)) (List.replicate xs.length 1) 1 1)] 1)
      p.prompt_file hnd1 hkeep1
    have htrig : triggerSave (Collector.mk [(wname, Stats.mk xs
        (xs.map (fun x => x * x)) (List.replicate xs.length 1) 1 1)] 0) p wname
        = Collector.mk [(wname, Stats.mk xs (xs.map (fun x => x * x))
            (List.replicate xs.length 1) 1 1)] 1 := by
      have h01 : (0 : Int) < 1 := by norm_num
      simp [triggerSave, lookupStats, hsk, h01]
    have hcp : collect_plain (Collector.mk [] 0) p wname xs.length [xs]
        = Except.ok (triggerSave (Collector.mk [(wname, Stats.mk xs
            (xs.map (fun x => x * x)) (List.replicate xs.length 1) 1 1)] 0) p wname) := by
      simp only [collect_plain, getOrInsert, lookupStats, Stats.init, List.nil_append,
        eq_self_iff_true, true_or]
      simp only [if_pos trivial]
      simp only [List.foldl_cons, List.foldl_nil, zero_add]
      rw [accumRow_fresh xs 1 1]
      simp [setStats]
    refine ⟨Collector.mk [(wname, Stats.mk xs (xs.map (fun x => x * x))
        (List.replicate xs.length 1) 1 1)] 1, ?_, ?_, ?_, serializedValues_once xs⟩
    · rw [hcp, htrig]
    · simp [lookupStats]
    · have hsk2 := save_imatrix_keep (Collector.mk [(wname, Stats.mk xs
          (xs.map (fun x => x * x)) (List.replicate xs.length 1) 1 1)] 1)
        pf hnd1 hkeep1
      rw [hsk2]
      simp

/-- Witness for C6: the theorem applied at the single activation row `[2]`;
the encoded value block is the raw squared activation `[4]`. -/
theorem c6_serialized_value_formula_witness :
    (∀ (c : Collector) (name : String) (s : Stats),
        (c.m_stats.map Prod.fst).Nodup → (name, s) ∈ c.m_stats → (processEntry s).1 = true →
        ∃ l1 l2, (save_imatrix c "f").1
          = l1 ++ entryChunks name (processEntry s).2 ++ l2) ∧
    ∃ c1, collect_plain (Collector.mk [] 0) (GptParams.mk 10 0 "") "blk.0.attn_k.weight"
        ([(2 : ℚ)].length) [[(2 : ℚ)]] = Except.ok c1 ∧
      lookupStats c1.m_stats "blk.0.attn_k.weight"
        = some (Stats.mk [(2 : ℚ)] ([(2 : ℚ)].map (fun x => x * x))
            (List.replicate [(2 : ℚ)].length 1) 1 1) ∧
      (save_imatrix c1 "f").1
        = Chunk.i32 1
            :: (entryChunks "blk.0.attn_k.weight" (Stats.mk [(2 : ℚ)]
                  ([(2 : ℚ)].map (fun x => x * x)) (List.replicate [(2 : ℚ)].length 1) 1 1)
              ++ [Chunk.i32 1, Chunk.i32 (("f".length : Nat) : Int), Chunk.str "f"]) ∧
      serializedValues (Stats.mk [(2 : ℚ)] ([(2 : ℚ)].map (fun x => x * x))
          (List.replicate [(2 : ℚ)].length 1) 1 1)
        = [(2 : ℚ)].map (fun x => x * x) :=
  c6_serialized_value_formula (GptParams.mk 10 0 "") "f" "blk.0.attn_k.weight" [(2 : ℚ)]
    (by decide)

/-- Claim C8.  The log-likelihood reducer's per-row computation: subtracting
the row maximum before exponentiating does not change the value —
`logit[tok] - max - log(sum_exp)` equals the mathematical log-softmax
`logit[tok] - log (Σ exp(logit[i]))` for every non-empty row — and on the
degenerate row `[0,0,0]` with target token 0 the log-softmax is `-log 3`,
the raw logit 0, and the probability `1/3`. -/
theorem c8_log_softmax_degenerate :
    (log_softmax 3 (fun _ => 0) 0).1 = -Real.log 3 ∧
    (log_softmax 3 (fun _ => 0) 0).2.1 = 0 ∧
    (log_softmax 3 (fun _ => 0) 0).2.2 = 1 / 3 ∧
    ∀ (n : Nat) (logits : Nat → ℝ) (tok : Nat), 0 < n →
      (log_softmax n logits tok).1
        = logits tok - Real.log (((List.range n).map (fun i => Real.exp (logits i))).sum) := by
  have hgen : ∀ (n : Nat) (logits : Nat → ℝ) (tok : Nat), 0 < n →
      (log_softmax n logits tok).1
        = logits tok - Real.log (((List.range n).map (fun i => Real.exp (logits i))).sum) := by
    intro n logits tok hn
    simp only [log_softmax]
    have hmax : ((List.range n).map (fun i =>
        Real.exp (logits i - (List.range n).foldl (fun m i => max m (logits i)) (logits 0)))).sum
        = ((List.range n).map (fun i => Real.exp (logits i))).sum
          * (Real.exp ((List.range n).foldl (fun m i => max m (logits i)) (logits 0)))⁻¹ := by
      rw [← List.sum_map_mul_right]
      refine congrArg List.sum ?_
      apply List.map_congr_left
      intro i _
      rw [Real.exp_sub]
      rw [div_eq_mul_inv]
    have hpos : 0 < ((List.range n).map (fun i => Real.exp (logits i))).sum := by
      apply List.sum_pos
      · intro x hx
        rcases List.mem_map.mp hx with ⟨i, _, rfl⟩
        exact Real.exp_pos _
      · simp only [ne_eq, List.map_eq_nil_iff, List.range_eq_nil]
        omega
    rw [hmax, Real.log_mul (ne_of_gt hpos) (by positivity), Real.log_inv, Real.log_exp]
    ring
  refine ⟨?_, ?_, ?_, hgen⟩
  · rw [hgen 3 (fun _ => 0) 0 (by norm_num)]
    norm_num [List.range_succ]
  · rfl
  · have hr : List.range 3 = [0, 1, 2] := rfl
    simp only [log_softmax, hr, List.foldl, List.map, List.sum_cons, List.sum_nil,
      max_self, sub_self, Real.exp_zero]
    norm_num

/-- Witness for C8: the max-subtraction identity applied to the degenerate
row itself. -/
theorem c8_log_softmax_degenerate_witness :
    (log_softmax 3 (fun _ => (0 : ℝ)) 0).1
      = (fun _ => (0 : ℝ)) 0
        - Real.log (((List.range 3).map (fun i => Real.exp ((fun _ => (0 : ℝ)) i))).sum) :=
  c8_log_softmax_degenerate.2.2.2 3 (fun _ => 0) 0 (by norm_num)

theorem sumSq_nonneg (v : List ℝ) : 0 ≤ sumSq v := by
  apply List.sum_nonneg
  intro x hx
  rcases List.mem_map.mp hx with ⟨a, _, rfl⟩
  exact mul_self_nonneg a

theorem dotProd_self (v : List ℝ) : dotProd v v = sumSq v := by
  induction v with
  | nil => rfl
  | cons a l ih =>
    simp only [dotProd, sumSq, List.zip_cons_cons, List.map_cons, List.sum_cons] at ih ⊢
    exact congrArg (fun t => a * a + t) ih

theorem limScore_formula (v w : List ℝ) (hlen : v.length = w.length)
    (hv : sumSq v ≠ 0) (hw : sumSq w ≠ 0) :
    limScore v w
      = some (-(dotProd v w / (Real.sqrt (sumSq v) * Real.sqrt (sumSq w)))) := by
  have hv' : Real.sqrt (sumSq v) ≠ 0 :=
    ne_of_gt (Real.sqrt_pos.mpr (lt_of_le_of_ne (sumSq_nonneg v) (Ne.symm hv)))
  have hw' : Real.sqrt (sumSq w) ≠ 0 :=
    ne_of_gt (Real.sqrt_pos.mpr (lt_of_le_of_ne (sumSq_nonneg w) (Ne.symm hw)))
  simp only [limScore]
  rw [if_neg (not_not.mpr hlen), if_neg (by push_neg; exact ⟨hv', hw'⟩)]

/-- Claim C9.  The layer-importance scorer: for an adjacent pair with
matching lengths and nonzero magnitudes the emitted score is the negated
cosine similarity of the two activation vectors — identical vectors with
nonzero sum of squares score `-1` and orthogonal vectors score `0` — while a
length mismatch or a zero-magnitude vector makes the pair skipped (`none`)
rather than fatal, and a family with fewer than two layers emits no scores
at all. -/
theorem c9_lim_scores :
    (∀ v w : List ℝ, v.length = w.length → sumSq v ≠ 0 → sumSq w ≠ 0 →
      limScore v w
        = some (-(dotProd v w / (Real.sqrt (sumSq v) * Real.sqrt (sumSq w))))) ∧
    (∀ v : List ℝ, sumSq v ≠ 0 → limScore v v = some (-1)) ∧
    (∀ v w : List ℝ, v.length = w.length → dotProd v w = 0 → sumSq v ≠ 0 → sumSq w ≠ 0 →
      limScore v w = some 0) ∧
    (∀ v w : List ℝ, v.length ≠ w.length → limScore v w = none) ∧
    (∀ v w : List ℝ, v.length = w.length → sumSq v = 0 ∨ sumSq w = 0 →
      limScore v w = none) ∧
    (∀ layers : List (Int × List ℝ), layers.length < 2 → limFamilyScores layers = []) := by
  refine ⟨limScore_formula, ?_, ?_, ?_, ?_, ?_⟩
  · intro v hv
    rw [limScore_formula v v rfl hv hv, dotProd_self,
      Real.mul_self_sqrt (sumSq_nonneg v), div_self hv]
  · intro v w hlen hdot hv hw
    rw [limScore_formula v w hlen hv hw, hdot, zero_div, neg_zero]
  · intro v w hlen
    simp only [limScore, if_pos hlen]
  · intro v w hlen hz
    simp only [limScore]
    rw [if_neg (not_not.mpr hlen), if_pos]
    rcases hz with h | h
    · left
      rw [h, Real.sqrt_zero]
    · right
      rw [h, Real.sqrt_zero]
  · intro layers hlt
    simp only [limFamilyScores, if_pos hlt]

/-- Witness for C9: concrete instances — identical vectors `[3, 4]` score
`-1`, orthogonal vectors `[1, 0]` and `[0, 2]` score `0`, a length mismatch
and a zero vector are skipped, and a single-layer family emits nothing. -/
theorem c9_lim_scores_witness :
    limScore [(3 : ℝ), 4] [(3 : ℝ), 4] = some (-1) ∧
    limScore [(1 : ℝ), 0] [(0 : ℝ), 2] = some 0 ∧
    limScore [(1 : ℝ)] [(1 : ℝ), 2] = none ∧
    limScore [(0 : ℝ), 0] [(1 : ℝ), 2] = none ∧
    limFamilyScores [(0, [(1 : ℝ)])] = [] := by
  have h34 : sumSq [(3 : ℝ), 4] ≠ 0 := by
    norm_num [sumSq]
  have h10 : sumSq [(1 : ℝ), 0] ≠ 0 := by
    norm_num [sumSq]
  have h02 : sumSq [(0 : ℝ), 2] ≠ 0 := by
    norm_num [sumSq]
  refine ⟨c9_lim_scores.2.1 [(3 : ℝ), 4] h34,
    c9_lim_scores.2.2.1 [(1 : ℝ), 0] [(0 : ℝ), 2] (by norm_num) (by norm_num [dotProd]) h10 h02,
    c9_lim_scores.2.2.2.1 [(1 : ℝ)] [(1 : ℝ), 2] (by norm_num),
    c9_lim_scores.2.2.2.2.1 [(0 : ℝ), 0] [(1 : ℝ), 2] (by norm_num)
      (Or.inl (by norm_num [sumSq])),
    c9_lim_scores.2.2.2.2.2 [(0, [(1 : ℝ)])] (by norm_num)⟩
